import Mathlib

/-!
Verification development for the tender-cli tool-invocation dispatch layer and
parallel fan-out engine.  The Lean definitions below are shallow embeddings of
the Python source:

* `runParallelTasks`  embeds `MCPServer._run_parallel_tasks`
  (src/tender_cli/mcp_tools/mcp_server.py).
* `dictInsert` / `dictGet` embed Python `dict` assignment and lookup
  (insertion-ordered association lists, assignment replaces in place).
* `registerTool` / `getToolByName` embed `BaseMCPTools.register_tool` and
  `BaseMCPTools.get_tool_by_name` (src/tender_cli/mcp_tools/base.py).
* `callMcpToolE`, `processTextToolCalls`, `chatModel`, `getMockResponse`
  embed the corresponding methods of `AIClient`
  (src/tender_cli/utils/ai_client.py).

Fallible Python code is embedded into `Except String α`: an `Except.error e`
value represents a raised exception whose `str(e)` is `e`; a `try/except`
block is embedded as a `match` on that value.  Machine timing is embedded by
giving each parallel task an explicit duration and comparing it with the
batch deadline (the model assumes at most `max_workers` tasks, so every task
starts immediately; this matches the scenarios of the spec's §8).
-/

/-- Python `dict` assignment `d[k] = v` on an insertion-ordered association
list: if the key is present its value is replaced in place, otherwise the
pair is appended at the end. -/
def dictInsert {α : Type} : List (String × α) → String → α → List (String × α)
  | [], k, v => [(k, v)]
  | (k', v') :: rest, k, v =>
    if k' = k then (k, v) :: rest else (k', v') :: dictInsert rest k v

/-- Python `dict.get(k)` / `d[k]` lookup on an association list. -/
def dictGet {α : Type} : List (String × α) → String → Option α
  | [], _ => none
  | (k', v') :: rest, k => if k' = k then some v' else dictGet rest k

theorem dictGet_dictInsert_same {α : Type} (l : List (String × α)) (k : String) (v : α) :
    dictGet (dictInsert l k v) k = some v := by
  induction l with
  | nil => simp [dictInsert, dictGet]
  | cons p rest ih =>
    obtain ⟨k', v'⟩ := p
    by_cases hp : k' = k
    · simp [dictInsert, hp, dictGet]
    · simp only [dictInsert, if_neg hp, dictGet]
      exact ih

theorem dictGet_dictInsert_other {α : Type} (l : List (String × α)) (k m : String) (v : α)
    (h : m ≠ k) : dictGet (dictInsert l k v) m = dictGet l m := by
  induction l with
  | nil =>
    simp only [dictInsert, dictGet]
    rw [if_neg (Ne.symm h)]
  | cons p rest ih =>
    obtain ⟨k', v'⟩ := p
    by_cases hp : k' = k
    · subst hp
      simp only [dictInsert, if_pos rfl, dictGet]
      rw [if_neg (Ne.symm h), if_neg (Ne.symm h)]
    · simp only [dictInsert, if_neg hp, dictGet]
      by_cases hm : k' = m
      · rw [if_pos hm, if_pos hm]
      · rw [if_neg hm, if_neg hm, ih]

theorem dictGet_eq_none_of_not_mem {α : Type} (l : List (String × α)) (k : String)
    (h : k ∉ l.map Prod.fst) : dictGet l k = none := by
  induction l with
  | nil => rfl
  | cons p rest ih =>
    obtain ⟨k', v'⟩ := p
    simp only [List.map_cons, List.mem_cons] at h
    push_neg at h
    simp only [dictGet]
    rw [if_neg (fun hh => h.1 hh.symm)]
    exact ih h.2

theorem dictInsert_fresh {α : Type} (l : List (String × α)) (k : String) (v : α)
    (h : k ∉ l.map Prod.fst) : dictInsert l k v = l ++ [(k, v)] := by
  induction l with
  | nil => rfl
  | cons p rest ih =>
    obtain ⟨k', v'⟩ := p
    simp only [List.map_cons, List.mem_cons] at h
    push_neg at h
    simp only [dictInsert]
    rw [if_neg (fun hh => h.1 hh.symm), List.cons_append, ih h.2]

/-- One unit of batch work submitted to `_run_parallel_tasks`: its dict key
(`str(task)`), the wall-clock time it needs, and the value it returns or the
exception it raises (`Except.error e` embeds `raise` with `str(e) = e`). -/
structure PTask where
  id : String
  duration : Nat
  run : Except String String

/-- The per-task outcome dict `{"success": ..., "content": ..., "error": ...}`
recorded by `_run_parallel_tasks`. -/
structure TaskOutcome where
  success : Bool
  content : Option String
  error : Option String
deriving DecidableEq

/-- The dict built from `future.result()` at lines 212-224 of mcp_server.py. -/
def taskOutcome (t : PTask) : TaskOutcome :=
  match t.run with
  | .ok v => ⟨true, some v, none⟩
  | .error e => ⟨false, none, some e⟩

/-- The aggregate report dict returned by `_run_parallel_tasks`.  The normal
path carries `success_rate` and no `error` key; the timeout path carries
`error = "Timeout"` and no `success_rate` key (both optional fields model the
presence or absence of the corresponding dict key). -/
structure BatchReport where
  total_tasks : Nat
  completed : Nat
  results : List (String × TaskOutcome)
  success_rate : Option ℚ
  error : Option String

/-- The spec's `timed_out` marker of a BatchReport: the timeout path of
`_run_parallel_tasks` marks the report with the `"error": "Timeout"` entry. -/
def BatchReport.timedOut (r : BatchReport) : Bool := r.error = some "Timeout"

/-- The `results[str(task)] = {...}` collection loop over the futures that
completed before the deadline. -/
def collectResults (done : List PTask) : List (String × TaskOutcome) :=
  done.foldl (fun acc t => dictInsert acc t.id (taskOutcome t)) []

/-- `sum(1 for r in results.values() if r["success"])`. -/
def countSuccess (rs : List (String × TaskOutcome)) : Nat :=
  (rs.filter (fun r => r.2.success)).length

/-- Embedding of `MCPServer._run_parallel_tasks` (mcp_server.py lines
195-243).  All tasks are submitted to the pool; `as_completed(..., timeout)`
yields exactly the futures whose task finishes within the deadline and raises
`concurrent.futures.TimeoutError` if any task is still outstanding when the
deadline elapses.  On the normal path the report divides by `total`
unguarded, so an empty batch raises `ZeroDivisionError` (the only handler
catches `TimeoutError`); on the timeout path the partial report carries
`completed = len(results)`, the collected `results`, and `"error": "Timeout"`
— and no `success_rate` key. -/
def runParallelTasks (timeout : Nat) (tasks : List PTask) : Except String BatchReport :=
  let done := tasks.filter (fun t => t.duration ≤ timeout)
  let results := collectResults done
  if done.length = tasks.length then
    if tasks.length = 0 then
      .error "ZeroDivisionError: division by zero"
    else
      .ok ⟨tasks.length, done.length, results,
        some ((countSuccess results : ℚ) / (tasks.length : ℚ)), none⟩
  else
    .ok ⟨tasks.length, results.length, results, none, some "Timeout"⟩

/-- The §8 timeout scenario: A finishes in 1s with a success, B needs 10s and
never finishes within the 5s deadline, C finishes in 1s raising `"x"`. -/
def tasksC1 : List PTask :=
  [⟨"A", 1, .ok "done"⟩, ⟨"B", 10, .ok "never"⟩, ⟨"C", 1, .error "x"⟩]

/-- The §8 fault-isolation scenario: A and C succeed, B raises `"x"`. -/
def tasksC3 : List PTask :=
  [⟨"A", 0, .ok "okA"⟩, ⟨"B", 0, .error "x"⟩, ⟨"C", 0, .ok "okC"⟩]

/-- Claim C1 (counterexample): in the timeout scenario the partial report has
no `success_rate` key at all, so `success_rate == 2/3` fails on the code. -/
theorem claim_C1_counterexample :
    (runParallelTasks 5 tasksC1).map (fun r => r.success_rate) = .ok none ∧
    (none : Option ℚ) ≠ some ((2 : ℚ) / 3) := by
  constructor
  · rfl
  · simp

/-- Claim C1 (amended): in the timeout scenario (tasks A: 1s success, B: 10s
never finishes, C: 1s fails with "x", deadline 5s) the engine returns a
partial report with `completed == 2 < total`, the `"error": "Timeout"`
timed-out marker, `results["A"]` a success, `results["C"]` a failure with
error "x", `"B"` absent from `results`, and no `success_rate` field. -/
theorem claim_C1_amended :
    ∃ r, runParallelTasks 5 tasksC1 = .ok r ∧
      r.completed = 2 ∧ r.completed < r.total_tasks ∧ r.timedOut = true ∧
      dictGet r.results "A" = some ⟨true, some "done", none⟩ ∧
      dictGet r.results "C" = some ⟨false, none, some "x"⟩ ∧
      dictGet r.results "B" = none ∧
      r.success_rate = none := by
  refine ⟨_, rfl, ?_⟩
  refine ⟨rfl, by decide, rfl, ?_, ?_, ?_, rfl⟩ <;> rfl

/-- Claim C3: fault isolation — with tasks [A: succeeds, B: raises "x",
C: succeeds] the report records B as a failure with error "x" while A and C
keep their success outcomes. -/
theorem claim_C3 :
    ∃ r, runParallelTasks 30 tasksC3 = .ok r ∧
      dictGet r.results "B" = some ⟨false, none, some "x"⟩ ∧
      dictGet r.results "A" = some ⟨true, some "okA", none⟩ ∧
      dictGet r.results "C" = some ⟨true, some "okC", none⟩ := by
  refine ⟨_, rfl, ?_, ?_, ?_⟩ <;> rfl

/-- Claim C10: for an empty batch the success-rate division by `total` is
unguarded and only `TimeoutError` is handled, so `_run_parallel_tasks` raises
an unhandled `ZeroDivisionError` instead of returning a report. -/
theorem claim_C10 (timeout : Nat) :
    runParallelTasks timeout [] = .error "ZeroDivisionError: division by zero" := rfl

/-- Whether the task's body returned normally (its recorded outcome is a
success) rather than raising. -/
def PTask.succeeded (t : PTask) : Bool :=
  match t.run with
  | .ok _ => true
  | .error _ => false

theorem foldl_dictInsert_eq_append (l : List PTask) :
    ∀ acc : List (String × TaskOutcome),
      (l.map PTask.id).Nodup → (∀ t ∈ l, t.id ∉ acc.map Prod.fst) →
      l.foldl (fun a t => dictInsert a t.id (taskOutcome t)) acc
        = acc ++ l.map (fun t => (t.id, taskOutcome t)) := by
  induction l with
  | nil => intro acc _ _; simp
  | cons t rest ih =>
    intro acc hnd hdisj
    rw [List.map_cons, List.nodup_cons] at hnd
    have hnd' := hnd
    simp only [List.foldl_cons]
    rw [dictInsert_fresh acc t.id (taskOutcome t) (hdisj t (List.mem_cons_self t rest))]
    have h2 : ∀ u ∈ rest, u.id ∉ (acc ++ [(t.id, taskOutcome t)]).map Prod.fst := by
      intro u hu
      simp only [List.map_append, List.mem_append, List.map_cons, List.map_nil,
        List.mem_singleton]
      push_neg
      exact ⟨hdisj u (List.mem_cons_of_mem _ hu),
        fun hh => hnd'.1 (hh ▸ List.mem_map_of_mem PTask.id hu)⟩
    rw [ih _ hnd'.2 h2]
    simp

theorem collectResults_eq_map (l : List PTask) (hd : (l.map PTask.id).Nodup) :
    collectResults l = l.map (fun t => (t.id, taskOutcome t)) := by
  have := foldl_dictInsert_eq_append l [] hd (by simp)
  simpa [collectResults] using this

theorem countSuccess_map (l : List PTask) :
    countSuccess (l.map (fun t => (t.id, taskOutcome t)))
      = (l.filter (fun t => t.succeeded)).length := by
  induction l with
  | nil => rfl
  | cons t rest ih =>
    have hs : (taskOutcome t).success = t.succeeded := by
      cases hr : t.run <;> simp [taskOutcome, PTask.succeeded, hr]
    cases hb : t.succeeded <;>
      simp [countSuccess, List.filter_cons, hs, hb, ih, List.map_cons] <;>
      simpa [countSuccess] using ih

/-- Claim C4: for a batch of N > 0 independent tasks (distinct ids) that all
finish within the deadline, the report has `completed == N`, no timeout
marker, and `success_rate == #successes / N`; in particular it is `1` when
every task succeeds. -/
theorem claim_C4 (timeout : Nat) (tasks : List PTask)
    (hN : 0 < tasks.length)
    (hid : (tasks.map PTask.id).Nodup)
    (hdl : ∀ t ∈ tasks, t.duration ≤ timeout) :
    ∃ r, runParallelTasks timeout tasks = .ok r ∧
      r.completed = tasks.length ∧
      r.timedOut = false ∧
      r.success_rate =
        some (((tasks.filter (fun t => t.succeeded)).length : ℚ) / (tasks.length : ℚ)) ∧
      ((∀ t ∈ tasks, t.succeeded = true) → r.success_rate = some 1) := by
  have hdone : tasks.filter (fun t => t.duration ≤ timeout) = tasks :=
    List.filter_eq_self.mpr (fun t ht => by simpa using hdl t ht)
  have hcount : countSuccess (collectResults tasks)
      = (tasks.filter (fun t => t.succeeded)).length := by
    rw [collectResults_eq_map tasks hid, countSuccess_map]
  simp only [runParallelTasks, hdone]
  rw [if_pos trivial, if_neg (by omega)]
  refine ⟨_, rfl, rfl, rfl, ?_, ?_⟩
  · rw [hcount]
  · intro hall
    have hfs : tasks.filter (fun t => t.succeeded) = tasks :=
      List.filter_eq_self.mpr hall
    rw [hcount, hfs, div_self (by exact_mod_cast hN.ne')]

/-- Concrete instance discharging claim C4's hypotheses: two instant
all-succeeding tasks, deadline 30. -/
theorem claim_C4_witness :
    ∃ r, runParallelTasks 30 [⟨"a", 0, .ok "v"⟩, ⟨"b", 1, .ok "w"⟩] = .ok r ∧
      r.completed = 2 ∧ r.timedOut = false ∧ r.success_rate = some 1 := by
  obtain ⟨r, h1, h2, h3, _, h5⟩ := claim_C4 30 [⟨"a", 0, .ok "v"⟩, ⟨"b", 1, .ok "w"⟩]
    (by decide) (by decide) (by decide)
  exact ⟨r, h1, h2, h3, h5 (by decide)⟩

/-- The mutable state of a `BaseMCPTools` instance that the registry methods
touch: whether `create_mcp_server()` has run, and the `_tools_registry` dict
(base.py).  `α` abstracts the registered capability objects. -/
structure ToolsState (α : Type) where
  mcpServerInit : Bool
  toolsRegistry : List (String × α)

/-- Embedding of `BaseMCPTools.register_tool` (base.py lines 70-77): raises
`RuntimeError` if the MCP server was never created, otherwise binds the
capability under the chosen name in `_tools_registry` (a plain dict
assignment, so a duplicate name silently replaces) and returns the
registered function. -/
def registerTool {α : Type} (st : ToolsState α) (name : String) (func : α) :
    Except String (ToolsState α × α) :=
  if st.mcpServerInit = false then
    .error "MCP server not initialized. Call create_mcp_server() first."
  else
    .ok ({ st with toolsRegistry := dictInsert st.toolsRegistry name func }, func)

/-- Embedding of `BaseMCPTools.get_tool_by_name` (base.py lines 150-152):
`self._tools_registry.get(name)` — `None` when absent. -/
def getToolByName {α : Type} (st : ToolsState α) (name : String) : Option α :=
  dictGet st.toolsRegistry name

/-- Claim C8: with the server initialized, registering `c1` then `c2` under
the same name raises no duplicate-name error and makes resolution return
`c2` (last registration wins) while every other name resolves as before; a
name never registered resolves to `None`. -/
theorem claim_C8 {α : Type} (st : ToolsState α) (name : String) (c1 c2 : α)
    (hinit : st.mcpServerInit = true) :
    (∃ st1 st2, registerTool st name c1 = .ok (st1, c1) ∧
      registerTool st1 name c2 = .ok (st2, c2) ∧
      getToolByName st2 name = some c2 ∧
      ∀ m, m ≠ name → getToolByName st2 m = getToolByName st m) ∧
    (∀ m, m ∉ st.toolsRegistry.map Prod.fst → getToolByName st m = none) := by
  obtain ⟨init, reg⟩ := st
  simp only at hinit
  subst hinit
  constructor
  · refine ⟨⟨true, dictInsert reg name c1⟩,
      ⟨true, dictInsert (dictInsert reg name c1) name c2⟩, rfl, rfl, ?_, ?_⟩
    · exact dictGet_dictInsert_same _ _ _
    · intro m hm
      unfold getToolByName
      simp only
      rw [dictGet_dictInsert_other _ _ _ _ hm, dictGet_dictInsert_other _ _ _ _ hm]
  · intro m hm
    exact dictGet_eq_none_of_not_mem _ _ hm

/-- Concrete instance discharging claim C8's hypotheses: an initialized state
with one pre-registered tool, re-registering "t" twice. -/
theorem claim_C8_witness :
    (∃ st1 st2, registerTool (⟨true, [("other", 7)]⟩ : ToolsState Nat) "t" 1 = .ok (st1, 1) ∧
      registerTool st1 "t" 2 = .ok (st2, 2) ∧
      getToolByName st2 "t" = some 2 ∧
      ∀ m, m ≠ "t" → getToolByName st2 m = getToolByName (⟨true, [("other", 7)]⟩ : ToolsState Nat) m) ∧
    (∀ m, m ∉ (([("other", 7)] : List (String × Nat)).map Prod.fst) →
      getToolByName (⟨true, [("other", 7)]⟩ : ToolsState Nat) m = none) :=
  claim_C8 ⟨true, [("other", 7)]⟩ "t" 1 2 rfl

/-- A Python value as produced or consumed by the MCP tool methods: strings,
booleans, integers, lists and string-keyed dicts. -/
inductive PyVal where
  | str (s : String)
  | bool (b : Bool)
  | int (n : Int)
  | list (xs : List PyVal)
  | dict (kvs : List (String × PyVal))

/-- The double-quote character. -/
def doubleQuoteChar : Char := Char.ofNat 34

/-- The single-quote character. -/
def singleQuoteChar : Char := Char.ofNat 39

/-- The backslash character. -/
def backslashChar : Char := Char.ofNat 92

/-- Python `"\n".join(...)` / `", ".join(...)`. -/
def joinWith (sep : String) : List String → String
  | [] => ""
  | [x] => x
  | x :: xs => x ++ sep ++ joinWith sep xs

/-- JSON string escaping (quotes and backslashes; `ensure_ascii=False` keeps
other characters as they are). -/
def jsonEscape (s : String) : String :=
  ⟨s.data.foldr (fun c acc =>
    if c = doubleQuoteChar ∨ c = backslashChar then backslashChar :: c :: acc
    else c :: acc) []⟩

mutual

/-- `json.dumps(..., ensure_ascii=False)` on a PyVal.  The `indent=2`
whitespace of the source call is not modelled; no claim depends on the
rendering of successful payloads. -/
def jsonDumps : PyVal → String
  | .str s => String.singleton doubleQuoteChar ++ jsonEscape s ++ String.singleton doubleQuoteChar
  | .bool true => "true"
  | .bool false => "false"
  | .int n => toString n
  | .list xs => "[" ++ joinWith ", " (jsonDumpsList xs) ++ "]"
  | .dict kvs => "\x7b" ++ joinWith ", " (jsonDumpsDict kvs) ++ "\x7d"

/-- `json.dumps` over the elements of a list value. -/
def jsonDumpsList : List PyVal → List String
  | [] => []
  | v :: vs => jsonDumps v :: jsonDumpsList vs

/-- `json.dumps` over the entries of a dict value. -/
def jsonDumpsDict : List (String × PyVal) → List String
  | [] => []
  | (k, v) :: kvs =>
    (String.singleton doubleQuoteChar ++ jsonEscape k ++
      String.singleton doubleQuoteChar ++ ": " ++ jsonDumps v) :: jsonDumpsDict kvs

end

/-- `json.dumps(result, ...) if isinstance(result, (dict, list)) else
str(result)` — the final serialisation of `_call_mcp_tool`. -/
def serializeResult : PyVal → String
  | .dict kvs => jsonDumps (.dict kvs)
  | .list xs => jsonDumps (.list xs)
  | .str s => s
  | .bool true => "True"
  | .bool false => "False"
  | .int n => toString n

/-- Python `arguments[k]` on a dict: the value, or a raised `KeyError` whose
`str()` is the repr of the key. -/
def pyGetItem (d : List (String × PyVal)) (k : String) : Except String PyVal :=
  match dictGet d k with
  | some v => .ok v
  | none => .error (String.singleton singleQuoteChar ++ k ++ String.singleton singleQuoteChar)

/-- The `MCPServer` methods reachable from `AIClient._call_mcp_tool`, kept
abstract: each returns a value or raises (`Except.error` carries the
exception's `str()`). -/
structure MCPServerModel where
  read_file : PyVal → Except String PyVal
  write_file : PyVal → PyVal → Except String PyVal
  list_files : PyVal → Except String PyVal
  get_section_structure : Except String PyVal
  generate_outline : PyVal → PyVal → Except String PyVal
  generate_subsection_content : PyVal → PyVal → PyVal → Except String PyVal
  one_click_docx_export : Except String PyVal

/-- The tool names of the `elif` chain in `_call_mcp_tool` (ai_client.py
lines 178-195). -/
def mcpToolNames : List String :=
  ["read_file", "write_file", "list_files", "get_section_structure",
   "generate_outline", "generate_subsection_content", "one_click_docx_export"]

/-- The body of the `try` block of `_call_mcp_tool` (ai_client.py lines
177-197): resolve the tool name through the `elif` chain, fetch the required
arguments (a missing key raises `KeyError`), invoke the method, and
serialise the result; an unknown name returns the not-found message without
raising.  `Except.error` values are exceptions that the block raises. -/
def dispatchBody (s : MCPServerModel) (name : String) (args : List (String × PyVal)) :
    Except String String :=
  if name = "read_file" then
    match pyGetItem args "path" with
    | .error e => .error e
    | .ok p =>
      match s.read_file p with
      | .error e => .error e
      | .ok r => .ok (serializeResult r)
  else if name = "write_file" then
    match pyGetItem args "path" with
    | .error e => .error e
    | .ok p =>
      match pyGetItem args "content" with
      | .error e => .error e
      | .ok c =>
        match s.write_file p c with
        | .error e => .error e
        | .ok r => .ok (serializeResult r)
  else if name = "list_files" then
    match pyGetItem args "directory" with
    | .error e => .error e
    | .ok d =>
      match s.list_files d with
      | .error e => .error e
      | .ok r => .ok (serializeResult r)
  else if name = "get_section_structure" then
    match s.get_section_structure with
    | .error e => .error e
    | .ok r => .ok (serializeResult r)
  else if name = "generate_outline" then
    match pyGetItem args "requirements" with
    | .error e => .error e
    | .ok rq =>
      match pyGetItem args "tender_type" with
      | .error e => .error e
      | .ok tt =>
        match s.generate_outline rq tt with
        | .error e => .error e
        | .ok r => .ok (serializeResult r)
  else if name = "generate_subsection_content" then
    match pyGetItem args "section" with
    | .error e => .error e
    | .ok sec =>
      match pyGetItem args "subsection" with
      | .error e => .error e
      | .ok sub =>
        match pyGetItem args "requirements" with
        | .error e => .error e
        | .ok rq =>
          match s.generate_subsection_content sec sub rq with
          | .error e => .error e
          | .ok r => .ok (serializeResult r)
  else if name = "one_click_docx_export" then
    match s.one_click_docx_export with
    | .error e => .error e
    | .ok r => .ok (serializeResult r)
  else
    .ok ("未知的工具: " ++ name)

/-- Embedding of `AIClient._call_mcp_tool` (ai_client.py lines 172-201): the
`None`-server guard, the `try` body, and the catch-all `except Exception`
that converts any raised exception into the failure string.  An
`Except.error` result of this function would be an exception escaping
`_call_mcp_tool` itself. -/
def callMcpToolE (srv : Option MCPServerModel) (name : String)
    (args : List (String × PyVal)) : Except String String :=
  match srv with
  | none => .ok "MCP服务器未初始化"
  | some s =>
    match dispatchBody s name args with
    | .ok r => .ok r
    | .error e => .ok ("工具调用失败: " ++ e)

/-- Claim C2: `_call_mcp_tool` always returns a result string and never lets
an exception escape; an unknown tool name yields the not-found message
naming the tool; any exception raised while resolving arguments or invoking
the capability is converted into the failure message carrying the
exception's description. -/
theorem claim_C2 (srv : MCPServerModel) (name : String) (args : List (String × PyVal)) :
    (∀ osrv : Option MCPServerModel, ∃ r, callMcpToolE osrv name args = .ok r) ∧
    (name ∉ mcpToolNames → callMcpToolE (some srv) name args = .ok ("未知的工具: " ++ name)) ∧
    (∀ e, dispatchBody srv name args = .error e →
      callMcpToolE (some srv) name args = .ok ("工具调用失败: " ++ e)) := by
  refine ⟨?_, ?_, ?_⟩
  · intro osrv
    cases osrv with
    | none => exact ⟨_, rfl⟩
    | some s =>
      cases h : dispatchBody s name args with
      | error e => exact ⟨"工具调用失败: " ++ e, by simp [callMcpToolE, h]⟩
      | ok r => exact ⟨r, by simp [callMcpToolE, h]⟩
  · intro hname
    simp only [mcpToolNames, List.mem_cons, List.not_mem_nil, or_false] at hname
    push_neg at hname
    obtain ⟨h1, h2, h3, h4, h5, h6, h7⟩ := hname
    simp [callMcpToolE, dispatchBody, h1, h2, h3, h4, h5, h6, h7]
  · intro e he
    simp [callMcpToolE, he]

/-- A concrete server model whose `read_file` raises `"boom"`. -/
def srvW : MCPServerModel :=
  ⟨fun _ => .error "boom", fun _ _ => .ok (.bool true), fun _ => .ok (.list []),
   .ok (.dict []), fun _ _ => .ok (.dict []), fun _ _ _ => .ok (.str "c"),
   .ok (.dict [])⟩

/-- Concrete instances discharging claim C2's hypotheses: an unregistered
name, and a capability that raises. -/
theorem claim_C2_witness :
    callMcpToolE (some srvW) "nope" [] = .ok ("未知的工具: " ++ "nope") ∧
    callMcpToolE (some srvW) "read_file" [("path", .str "/f")] =
      .ok ("工具调用失败: " ++ "boom") :=
  ⟨(claim_C2 srvW "nope" []).2.1 (by decide),
   (claim_C2 srvW "read_file" [("path", .str "/f")]).2.2 "boom" rfl⟩

/-- Python `str.strip()` whitespace set (common ASCII whitespace). -/
def isPyWs (c : Char) : Bool :=
  c = ' ' || c = '\t' || c = '\n' || c = '\r' || c = '\x0b' || c = '\x0c'

/-- The two quote characters of Python `strip('"\'')`. -/
def isQuoteChar (c : Char) : Bool := c = doubleQuoteChar || c = singleQuoteChar

/-- Python `str.strip(chars)`: repeatedly removes characters of the class
from both ends. -/
def stripChars (p : Char → Bool) (s : String) : String :=
  ⟨((s.data.dropWhile p).reverse.dropWhile p).reverse⟩

/-- Python `str.strip()` (no argument: whitespace). -/
def pyStripWs (s : String) : String := stripChars isPyWs s

/-- Python `str.strip('"\'')`. -/
def pyStripQuotes (s : String) : String := stripChars isQuoteChar s

/-- Python `str.split(',')` on the character list: splits at every comma,
keeping empty segments. -/
def splitOnComma : List Char → List (List Char)
  | [] => [[]]
  | c :: cs =>
    let r := splitOnComma cs
    if c = ',' then [] :: r
    else (c :: r.headD []) :: r.tail

/-- Embedding of the argument-parsing loop of `_process_text_tool_calls`
(ai_client.py lines 349-360): if the raw argument string is non-blank, split
it on every `,`; for each segment containing `=`, split at the first `=`,
strip whitespace and then any run of quote characters from both key and
value, and assign into the arguments dict; segments lacking `=` are skipped
(the surrounding `try` never fires — no operation in the loop raises). -/
def parseArgs (argsStr : String) : List (String × PyVal) :=
  if pyStripWs argsStr = "" then []
  else
    (splitOnComma argsStr.data).foldl (fun acc arg =>
      if arg.contains '=' then
        dictInsert acc
          (pyStripQuotes (pyStripWs ⟨arg.takeWhile (fun c => c ≠ '=')⟩))
          (.str (pyStripQuotes (pyStripWs ⟨(arg.dropWhile (fun c => c ≠ '=')).tail⟩)))
      else acc) []

/-- Splitting on top-level commas only, per the claim's wording: a comma
inside a quoted span (delimited by a matching `'` or `"`) does not split.
`inq` is the currently open quote character, `acc` the current segment
reversed. -/
def splitTLAux : List Char → Option Char → List Char → List (List Char)
  | [], _, acc => [acc.reverse]
  | c :: cs, some q, acc =>
    if c = q then splitTLAux cs none (c :: acc) else splitTLAux cs (some q) (c :: acc)
  | c :: cs, none, acc =>
    if c = ',' then acc.reverse :: splitTLAux cs none []
    else if isQuoteChar c then splitTLAux cs (some c) (c :: acc)
    else splitTLAux cs none (c :: acc)

/-- Top-level comma split of a string (claim wording). -/
def splitTopLevelCommas (s : String) : List (List Char) := splitTLAux s.data none []

/-- Stripping exactly one layer of matching quote characters, per the
claim's wording: remove the first and last character when they are the same
quote character, otherwise leave the string unchanged. -/
def stripOneMatchingQuote (s : String) : String :=
  match s.data with
  | [] => s
  | c :: cs =>
    if isQuoteChar c && !cs.isEmpty && (cs.getLast? == some c) then ⟨cs.dropLast⟩ else s

/-- Formalisation of claim C7's parsing rule exactly as worded: split the
parenthesized segment on top-level commas, split each segment on the first
`=` (segments lacking `=` dropped without aborting), strip whitespace and
then exactly one layer of matching quote characters from key and value. -/
def specParseArgs (argsStr : String) : List (String × PyVal) :=
  if pyStripWs argsStr = "" then []
  else
    (splitTopLevelCommas argsStr).foldl (fun acc seg =>
      if seg.contains '=' then
        dictInsert acc
          (stripOneMatchingQuote (pyStripWs ⟨seg.takeWhile (fun c => c ≠ '=')⟩))
          (.str (stripOneMatchingQuote (pyStripWs ⟨(seg.dropWhile (fun c => c ≠ '=')).tail⟩)))
      else acc) []

/-- Projection of a string-valued dict entry. -/
def pyAsStr : Option PyVal → Option String
  | some (.str s) => some s
  | _ => none

/-- Claim C7 (counterexample): on `a="1,2",b=""3""` the code splits inside
the quoted value and strips every quote layer, so it yields
`a = "1", b = "3"`, while the claim's rule (top-level commas, one matching
quote layer) yields `a = "1,2", b = "\"3\""` — the two parsing rules
disagree. -/
theorem claim_C7_counterexample :
    pyAsStr (dictGet (parseArgs "a=\"1,2\",b=\"\"3\"\"") "a") = some "1" ∧
    pyAsStr (dictGet (parseArgs "a=\"1,2\",b=\"\"3\"\"") "b") = some "3" ∧
    pyAsStr (dictGet (specParseArgs "a=\"1,2\",b=\"\"3\"\"") "a") = some "1,2" ∧
    pyAsStr (dictGet (specParseArgs "a=\"1,2\",b=\"\"3\"\"") "b") = some "\"3\"" ∧
    parseArgs "a=\"1,2\",b=\"\"3\"\"" ≠ specParseArgs "a=\"1,2\",b=\"\"3\"\"" := by
  refine ⟨rfl, rfl, rfl, rfl, ?_⟩
  intro h
  have h1 : pyAsStr (dictGet (parseArgs "a=\"1,2\",b=\"\"3\"\"") "b") = some "3" := rfl
  rw [h] at h1
  have h2 : pyAsStr (dictGet (specParseArgs "a=\"1,2\",b=\"\"3\"\"") "b") = some "\"3\"" := rfl
  rw [h1] at h2
  exact absurd (Option.some.inj h2) (by decide)

/-- Removing a trailing run of characters of a class, by direct recursion. -/
def dropTrail (p : Char → Bool) : List Char → List Char
  | [] => []
  | c :: cs =>
    match dropTrail p cs with
    | [] => if p c then [] else [c]
    | d :: ds => c :: d :: ds

/-- Stripping a leading and a trailing run of characters of a class — the
amended reading of the quote-stripping step. -/
def stripRun (p : Char → Bool) (l : List Char) : List Char :=
  dropTrail p (l.dropWhile p)

/-- Accumulator-style split at every comma — the amended reading of the
comma-splitting step. -/
def splitCommaAux (cur : List Char) : List Char → List (List Char)
  | [] => [cur.reverse]
  | c :: cs =>
    if c = ',' then cur.reverse :: splitCommaAux [] cs
    else splitCommaAux (c :: cur) cs

/-- Formalisation of claim C7 as amended: split the parenthesized segment at
every comma (quotes do not protect commas), drop segments lacking `=`, split
each kept segment at its first `=`, and strip whitespace and then any run of
leading/trailing quote characters (single or double, not necessarily
matching) from key and value, assigning into the arguments dict. -/
def amendedParseArgs (argsStr : String) : List (String × PyVal) :=
  if pyStripWs argsStr = "" then []
  else
    ((splitCommaAux [] argsStr.data).filter (fun seg => seg.contains '=')).foldl
      (fun acc seg =>
        dictInsert acc
          ⟨stripRun isQuoteChar (stripRun isPyWs (seg.takeWhile (fun c => c ≠ '=')))⟩
          (.str ⟨stripRun isQuoteChar
            (stripRun isPyWs ((seg.dropWhile (fun c => c ≠ '=')).tail))⟩))
      []

theorem dropWhile_append_singleton (p : Char → Bool) (c : Char) : ∀ xs : List Char,
    (xs ++ [c]).dropWhile p =
      if (xs.dropWhile p).isEmpty then (if p c then [] else [c])
      else xs.dropWhile p ++ [c] := by
  intro xs
  induction xs with
  | nil => cases hp : p c <;> simp [List.dropWhile, hp]
  | cons x xs ih =>
    cases hp : p x with
    | true => simpa [List.dropWhile_cons, hp] using ih
    | false => simp [List.dropWhile_cons, hp]

theorem dropTrail_eq (p : Char → Bool) : ∀ l : List Char,
    dropTrail p l = (l.reverse.dropWhile p).reverse := by
  intro l
  induction l with
  | nil => rfl
  | cons c cs ih =>
    simp only [dropTrail, List.reverse_cons, dropWhile_append_singleton]
    cases hr : dropTrail p cs with
    | nil =>
      have hnil : cs.reverse.dropWhile p = [] :=
        List.reverse_eq_nil_iff.mp (ih.symm.trans hr).symm.symm
      rw [hnil]
      simp only [List.isEmpty_nil, if_true]
      cases hp : p c <;> simp [hp]
    | cons d ds =>
      have h2 : (cs.reverse.dropWhile p).reverse = d :: ds := ih.symm.trans hr
      have hne : (cs.reverse.dropWhile p).isEmpty = false := by
        cases hq : cs.reverse.dropWhile p with
        | nil => rw [hq] at h2; simp at h2
        | cons _ _ => rfl
      rw [hne]
      simp [h2]

theorem stripChars_eq_stripRun (p : Char → Bool) (l : List Char) :
    (stripChars p ⟨l⟩).data = stripRun p l := by
  unfold stripChars stripRun
  rw [dropTrail_eq]

theorem splitOnComma_ne_nil (l : List Char) : splitOnComma l ≠ [] := by
  cases l with
  | nil => simp [splitOnComma]
  | cons c cs =>
    by_cases hc : c = ',' <;> simp [splitOnComma, hc]

theorem splitCommaAux_general (l : List Char) : ∀ cur : List Char,
    splitCommaAux cur l =
      (cur.reverse ++ (splitOnComma l).headD []) :: (splitOnComma l).tail := by
  induction l with
  | nil => intro cur; simp [splitCommaAux, splitOnComma]
  | cons c cs ih =>
    intro cur
    by_cases hc : c = ','
    · simp only [splitCommaAux, splitOnComma, if_pos hc]
      rw [ih []]
      cases hr : splitOnComma cs with
      | nil => exact absurd hr (splitOnComma_ne_nil cs)
      | cons a as => simp
    · simp only [splitCommaAux, splitOnComma, if_neg hc]
      rw [ih (c :: cur)]
      simp

theorem splitCommaAux_eq (l : List Char) : splitCommaAux [] l = splitOnComma l := by
  rw [splitCommaAux_general l []]
  cases hr : splitOnComma l with
  | nil => exact absurd hr (splitOnComma_ne_nil l)
  | cons a as => simp

theorem foldl_filter_if {α β : Type} (p : α → Bool) (f : β → α → β) :
    ∀ (l : List α) (b : β),
      (l.filter p).foldl f b = l.foldl (fun x y => if p y then f x y else x) b := by
  intro l
  induction l with
  | nil => intro b; rfl
  | cons a l ih =>
    intro b
    by_cases hp : p a
    · simp [List.filter_cons, hp, ih]
    · simp [List.filter_cons, hp, ih]

/-- Claim C7 (amended, proved): the source's argument parsing coincides, for
every raw argument string, with the amended rule — split at every comma,
drop segments lacking `=`, split each kept segment at its first `=`, strip
whitespace then any run of quote characters from both sides of key and
value. -/
theorem claim_C7_amended (s : String) : parseArgs s = amendedParseArgs s := by
  unfold parseArgs amendedParseArgs
  by_cases h0 : pyStripWs s = ""
  · rw [if_pos h0, if_pos h0]
  · rw [if_neg h0, if_neg h0, splitCommaAux_eq, foldl_filter_if]
    congr 1
    funext acc seg
    by_cases hc : seg.contains '='
    · rw [if_pos hc, if_pos hc]
      have hk : pyStripQuotes (pyStripWs ⟨seg.takeWhile (fun c => c ≠ '=')⟩)
          = ⟨stripRun isQuoteChar (stripRun isPyWs (seg.takeWhile (fun c => c ≠ '=')))⟩ := by
        unfold pyStripQuotes pyStripWs
        have h1 : stripChars isPyWs ⟨seg.takeWhile (fun c => c ≠ '=')⟩
            = ⟨stripRun isPyWs (seg.takeWhile (fun c => c ≠ '='))⟩ := by
          apply String.ext
          exact stripChars_eq_stripRun _ _
        rw [h1]
        apply String.ext
        exact stripChars_eq_stripRun _ _
      have hv : pyStripQuotes (pyStripWs ⟨(seg.dropWhile (fun c => c ≠ '=')).tail⟩)
          = ⟨stripRun isQuoteChar (stripRun isPyWs ((seg.dropWhile (fun c => c ≠ '=')).tail))⟩ := by
        unfold pyStripQuotes pyStripWs
        have h1 : stripChars isPyWs ⟨(seg.dropWhile (fun c => c ≠ '=')).tail⟩
            = ⟨stripRun isPyWs ((seg.dropWhile (fun c => c ≠ '=')).tail)⟩ := by
          apply String.ext
          exact stripChars_eq_stripRun _ _
        rw [h1]
        apply String.ext
        exact stripChars_eq_stripRun _ _
      rw [hk, hv]
    · rw [if_neg hc, if_neg hc]

/-- Python regex `\w` (ASCII model: alphanumerics and underscore). -/
def isWordChar (c : Char) : Bool := c.isAlphanum || c = '_'

/-- Python regex `\s` (ASCII model). -/
def isSpaceChar (c : Char) : Bool := isPyWs c

/-- The literal marker of the informal textual call convention. -/
def toolMarker : String := "TOOL_CALL:"

/-- Matching a literal prefix: the remainder on success. -/
def dropPrefixChars : List Char → List Char → Option (List Char)
  | [], l => some l
  | _ :: _, [] => none
  | p :: ps, c :: cs => if c = p then dropPrefixChars ps cs else none

/-- The lazy `(.*?)\)` step of the pattern: scan to the first `)`, with `.`
not matching a newline; fail when a newline or the end of the text comes
first. -/
def scanArgs : List Char → Option (List Char × List Char)
  | [] => none
  | c :: cs =>
    if c = ')' then some ([], cs)
    else if c = '\n' then none
    else
      match scanArgs cs with
      | some (a, r) => some (c :: a, r)
      | none => none

/-- The `(\w+)\(` step of the pattern: a non-empty greedy word run followed
immediately by `(`; returns the name and the characters after `(`. -/
def matchNameParen (r2 : List Char) : Option (String × List Char) :=
  if (r2.takeWhile isWordChar).isEmpty then none
  else if (r2.dropWhile isWordChar).head? = some '(' then
    some (⟨r2.takeWhile isWordChar⟩, (r2.dropWhile isWordChar).tail)
  else none

/-- One attempt of the pattern `TOOL_CALL:\s*(\w+)\((.*?)\)` at the head of
`l` (as `re.findall` tries at each position): the marker literal, greedy
space skip, the name group, `(`, and the lazy argument group up to the first
`)`.  The character classes are disjoint, so the greedy/lazy quantifiers
match deterministically.  Returns both groups and the remainder after the
match. -/
def tryMatch (l : List Char) : Option (String × String × List Char) :=
  (dropPrefixChars toolMarker.data l).bind (fun r1 =>
    (matchNameParen (r1.dropWhile isSpaceChar)).bind (fun nr =>
      (scanArgs nr.2).map (fun ar => (nr.1, (⟨ar.1⟩ : String), ar.2))))

theorem dropPrefixChars_length : ∀ (ps l r : List Char),
    dropPrefixChars ps l = some r → r.length + ps.length = l.length := by
  intro ps
  induction ps with
  | nil =>
    intro l r h
    simp only [dropPrefixChars, Option.some.injEq] at h
    subst h
    simp
  | cons p ps ih =>
    intro l r h
    cases l with
    | nil => exact absurd h (by simp [dropPrefixChars])
    | cons c cs =>
      simp only [dropPrefixChars] at h
      by_cases hc : c = p
      · rw [if_pos hc] at h
        have := ih cs r h
        simp only [List.length_cons]
        omega
      · rw [if_neg hc] at h
        exact absurd h (by simp)

theorem dropWhile_length_le (p : Char → Bool) : ∀ l : List Char,
    (l.dropWhile p).length ≤ l.length := by
  intro l
  induction l with
  | nil => simp
  | cons c cs ih =>
    cases hp : p c with
    | true =>
      rw [List.dropWhile_cons, if_pos (by simp [hp])]
      exact Nat.le_trans ih (by simp)
    | false =>
      rw [List.dropWhile_cons, if_neg (by simp [hp])]

theorem scanArgs_length : ∀ (l a r : List Char),
    scanArgs l = some (a, r) → r.length < l.length := by
  intro l
  induction l with
  | nil => intro a r h; exact absurd h (by simp [scanArgs])
  | cons c cs ih =>
    intro a r h
    simp only [scanArgs] at h
    by_cases h1 : c = ')'
    · rw [if_pos h1] at h
      simp only [Option.some.injEq, Prod.mk.injEq] at h
      rw [← h.2]
      simp
    · rw [if_neg h1] at h
      by_cases h2 : c = '\n'
      · rw [if_pos h2] at h; exact absurd h (by simp)
      · rw [if_neg h2] at h
        cases h3 : scanArgs cs with
        | none => rw [h3] at h; exact absurd h (by simp)
        | some w =>
          obtain ⟨a', r'⟩ := w
          rw [h3] at h
          simp only [Option.some.injEq, Prod.mk.injEq] at h
          have := ih a' r' h3
          rw [← h.2]
          simp only [List.length_cons]
          omega

theorem matchNameParen_length {r2 : List Char} {nm : String} {r4 : List Char}
    (h : matchNameParen r2 = some (nm, r4)) : r4.length < r2.length := by
  unfold matchNameParen at h
  by_cases he : (r2.takeWhile isWordChar).isEmpty
  · rw [if_pos he] at h; exact absurd h (by simp)
  · rw [if_neg he] at h
    by_cases hh : (r2.dropWhile isWordChar).head? = some '('
    · rw [if_pos hh] at h
      simp only [Option.some.injEq, Prod.mk.injEq] at h
      have hlen := dropWhile_length_le isWordChar r2
      cases hd : r2.dropWhile isWordChar with
      | nil => rw [hd] at hh; exact absurd hh (by simp)
      | cons c r =>
        rw [hd] at hlen
        rw [← h.2, hd]
        simp only [List.tail_cons, List.length_cons] at *
        omega
    · rw [if_neg hh] at h
      exact absurd h (by simp)

theorem tryMatch_rest_length {l : List Char} {n a : String} {rest : List Char}
    (h : tryMatch l = some (n, a, rest)) : rest.length < l.length := by
  unfold tryMatch at h
  cases h1 : dropPrefixChars toolMarker.data l with
  | none => rw [h1] at h; exact absurd h (by simp)
  | some r1 =>
    rw [h1, Option.some_bind] at h
    cases h2 : matchNameParen (r1.dropWhile isSpaceChar) with
    | none => rw [h2] at h; exact absurd h (by simp)
    | some v =>
      obtain ⟨nm, r4⟩ := v
      rw [h2, Option.some_bind] at h
      cases h3 : scanArgs r4 with
      | none => rw [h3] at h; exact absurd h (by simp)
      | some w =>
        obtain ⟨aa, rr⟩ := w
        rw [h3] at h
        simp only [Option.map_some', Option.some.injEq, Prod.mk.injEq] at h
        have l1 := dropPrefixChars_length _ _ _ h1
        have l2 := matchNameParen_length h2
        have l3 := dropWhile_length_le isSpaceChar r1
        have l4 := scanArgs_length _ _ _ h3
        have l5 : toolMarker.data.length = 10 := rfl
        rw [l5] at l1
        rw [← h.2.2]
        omega

/-- Fuel-indexed scanning loop of `re.findall`: try the pattern at each
position, from left to right; on a match, record the two groups and resume
after the matched span (non-overlapping matches); otherwise move one
character forward.  The fuel dominates the scanned length. -/
def findToolFuel : Nat → List Char → List (String × String)
  | 0, _ => []
  | _ + 1, [] => []
  | fuel + 1, c :: cs =>
    match tryMatch (c :: cs) with
    | some (n, a, rest) => (n, a) :: findToolFuel fuel rest
    | none => findToolFuel fuel cs

/-- `re.findall(r'TOOL_CALL:\s*(\w+)\((.*?)\)', text)` over a character
list: the list of (name, raw-argument-string) groups of the non-overlapping
matches, in scan order. -/
def findTool (l : List Char) : List (String × String) := findToolFuel l.length l

theorem findToolFuel_congr : ∀ (f1 f2 : Nat) (l : List Char),
    l.length ≤ f1 → l.length ≤ f2 → findToolFuel f1 l = findToolFuel f2 l := by
  intro f1
  induction f1 with
  | zero =>
    intro f2 l h1 _
    have : l = [] := List.eq_nil_of_length_eq_zero (Nat.le_zero.mp h1)
    subst this
    cases f2 <;> rfl
  | succ f ih =>
    intro f2 l h1 h2
    cases l with
    | nil => cases f2 <;> rfl
    | cons c cs =>
      cases f2 with
      | zero => simp at h2
      | succ g =>
        simp only [findToolFuel]
        cases h : tryMatch (c :: cs) with
        | some v =>
          obtain ⟨n, a, rest⟩ := v
          have hr := tryMatch_rest_length h
          simp only [List.length_cons] at h1 h2 hr
          show (n, a) :: findToolFuel f rest = (n, a) :: findToolFuel g rest
          rw [ih g rest (by omega) (by omega)]
        | none =>
          simp only [List.length_cons] at h1 h2
          show findToolFuel f cs = findToolFuel g cs
          rw [ih g cs (by omega) (by omega)]

theorem findTool_eq_cons {l : List Char} {n a : String} {rest : List Char}
    (h : tryMatch l = some (n, a, rest)) :
    findTool l = (n, a) :: findTool rest := by
  cases l with
  | nil => exact absurd h (by simp [tryMatch, toolMarker, dropPrefixChars])
  | cons c cs =>
    have hr := tryMatch_rest_length h
    simp only [List.length_cons] at hr
    unfold findTool
    simp only [List.length_cons, findToolFuel]
    rw [h]
    show (n, a) :: findToolFuel cs.length rest = (n, a) :: findToolFuel rest.length rest
    rw [findToolFuel_congr cs.length rest.length rest (by omega) (by omega)]

theorem findTool_eq_tail {c : Char} {cs : List Char}
    (h : tryMatch (c :: cs) = none) : findTool (c :: cs) = findTool cs := by
  unfold findTool
  simp only [List.length_cons, findToolFuel]
  rw [h]

theorem findTool_skip : ∀ (pre rest : List Char),
    (∀ k, k < pre.length → tryMatch ((pre ++ rest).drop k) = none) →
    findTool (pre ++ rest) = findTool rest := by
  intro pre
  induction pre with
  | nil => intro rest _; rfl
  | cons c cs ih =>
    intro rest h
    have h0 : tryMatch (c :: (cs ++ rest)) = none := by
      have := h 0 (by simp)
      simpa using this
    rw [List.cons_append, findTool_eq_tail h0]
    exact ih rest (fun k hk => by
      have := h (k + 1) (by simp only [List.length_cons]; omega)
      simpa [List.drop_succ_cons] using this)

/-- Python `pat in text` on character lists. -/
def listContainsSub (pat : List Char) : List Char → Bool
  | [] => pat.isEmpty
  | c :: cs => pat.isPrefixOf (c :: cs) || listContainsSub pat cs

/-- Python `pat in text` on strings. -/
def strIn (pat hay : String) : Bool := listContainsSub pat.data hay.data

theorem listContainsSub_append (pat : List Char) : ∀ (xs l : List Char),
    pat.isPrefixOf l = true → listContainsSub pat (xs ++ l) = true := by
  intro xs
  induction xs with
  | nil =>
    intro l h
    cases l with
    | nil =>
      cases pat with
      | nil => rfl
      | cons p ps => simp [List.isPrefixOf] at h
    | cons c cs => simp [listContainsSub, h]
  | cons x xs ih =>
    intro l h
    simp [listContainsSub, ih l h]

/-- The per-match result blocks appended by `_process_text_tool_calls`
(ai_client.py lines 345-366): for each detected (name, raw-args) pair, parse
the arguments, call `_call_mcp_tool`, and format the result block. -/
def renderToolParts (srv : Option MCPServerModel) :
    List (String × String) → Except String (List String)
  | [] => .ok []
  | (n, a) :: rest =>
    match callMcpToolE srv n (parseArgs a) with
    | .error e => .error e
    | .ok r =>
      match renderToolParts srv rest with
      | .error e => .error e
      | .ok rs => .ok (("\n\n**" ++ n ++ " 执行结果：**\n" ++ r) :: rs)

/-- Embedding of `AIClient._process_text_tool_calls` (ai_client.py lines
330-368): pass the text through unchanged when no tools are registered
(`available_tools` is empty iff no MCP server was given), when the marker
substring is absent, or when `re.findall` yields no match; otherwise execute
every detected call and return the original text with one result block
appended per match, joined by newlines. -/
def processTextToolCalls (srv : Option MCPServerModel) (text : String) :
    Except String String :=
  if srv.isNone || !(strIn toolMarker text) then .ok text
  else
    match findTool text.data with
    | [] => .ok text
    | ms =>
      match renderToolParts srv ms with
      | .error e => .error e
      | .ok parts => .ok (joinWith "\n" (text :: parts))

theorem processTextToolCalls_id (srv : Option MCPServerModel) (text : String)
    (h : findTool text.data = []) : processTextToolCalls srv text = .ok text := by
  unfold processTextToolCalls
  by_cases hc : (srv.isNone || !(strIn toolMarker text)) = true
  · rw [if_pos hc]
  · rw [if_neg hc, h]

/-- The single well-formed marker occurrence of claim C5. -/
def s5 : String := "TOOL_CALL: f(a=\"1\", b=\"2\")"

theorem tryMatch_s5 (q : List Char) :
    tryMatch (s5.data ++ q) = some ("f", "a=\"1\", b=\"2\"", q) := rfl

/-- Claim C5: for any text `pre ++ s5 ++ post` whose single well-formed
marker occurrence is the `TOOL_CALL: f(a="1", b="2")` span (the pattern
matches at no position inside `pre`, and `post` contains no match), the
extractor detects exactly that one call, parses its arguments to
`{a: "1", b: "2"}` with the quotes stripped, and the returned text preserves
the entire original text unmodified as a prefix, appending only the result
block of the executed call. -/
theorem claim_C5 (srv : MCPServerModel) (pre post : String)
    (h1 : ∀ k, k < pre.data.length →
      tryMatch ((pre.data ++ (s5.data ++ post.data)).drop k) = none)
    (h2 : findTool post.data = []) :
    findTool (pre ++ s5 ++ post).data = [("f", "a=\"1\", b=\"2\"")] ∧
    parseArgs "a=\"1\", b=\"2\"" = [("a", .str "1"), ("b", .str "2")] ∧
    processTextToolCalls (some srv) (pre ++ s5 ++ post) =
      .ok ((pre ++ s5 ++ post) ++ "\n" ++ "\n\n**f 执行结果：**\n未知的工具: f") := by
  have hdata : (pre ++ s5 ++ post).data = pre.data ++ (s5.data ++ post.data) := by
    rw [String.data_append, String.data_append, List.append_assoc]
  have hfind : findTool (pre ++ s5 ++ post).data = [("f", "a=\"1\", b=\"2\"")] := by
    rw [hdata, findTool_skip pre.data _ h1, findTool_eq_cons (tryMatch_s5 post.data), h2]
  refine ⟨hfind, rfl, ?_⟩
  have hin : strIn toolMarker (pre ++ s5 ++ post) = true := by
    unfold strIn
    rw [hdata]
    exact listContainsSub_append toolMarker.data pre.data (s5.data ++ post.data) rfl
  unfold processTextToolCalls
  rw [if_neg (by simp [hin]), hfind]
  rfl

/-- Concrete instance discharging claim C5's hypotheses: the marker
occurrence surrounded by plain prose. -/
theorem claim_C5_witness :
    findTool ("Sure. " ++ s5 ++ " Done.").data = [("f", "a=\"1\", b=\"2\"")] ∧
    parseArgs "a=\"1\", b=\"2\"" = [("a", .str "1"), ("b", .str "2")] ∧
    processTextToolCalls (some srvW) ("Sure. " ++ s5 ++ " Done.") =
      .ok (("Sure. " ++ s5 ++ " Done.") ++ "\n" ++ "\n\n**f 执行结果：**\n未知的工具: f") :=
  claim_C5 srvW "Sure. " " Done." (by decide) rfl

/-- Python `str.lower()` (ASCII model). -/
def pyLower (s : String) : String := s.toLower

/-- The `mock_mode` flag of `AIClient.__init__` (ai_client.py line 30):
`not (bool(api_key) or bool(base_url))`, where both config values were
`.strip()`-ed at lines 21-22. -/
def mockMode (apiKey baseUrl : String) : Bool :=
  !(!(pyStripWs apiKey == "") || !(pyStripWs baseUrl == ""))

/-- Canned intent response for project creation (ai_client.py 377-387). -/
def mockIntentCreate : String :=
  "\n\x7b\n    \"intent\": \"create_project\",\n    \"confidence\": 0.9,\n    \"entities\": \x7b\n        \"project_name\": \"智慧城市建设项目\"\n    \x7d,\n    \"task_type\": \"simple\",\n    \"requires_planning\": false\n\x7d\n"

/-- Canned intent response for outline generation (ai_client.py 389-397). -/
def mockIntentOutline : String :=
  "\n\x7b\n    \"intent\": \"generate_outline\",\n    \"confidence\": 0.9,\n    \"entities\": \x7b\x7d,\n    \"task_type\": \"simple\",\n    \"requires_planning\": false\n\x7d\n"

/-- Canned intent response for content viewing (ai_client.py 399-407). -/
def mockIntentView : String :=
  "\n\x7b\n    \"intent\": \"view_content\",\n    \"confidence\": 0.8,\n    \"entities\": \x7b\x7d,\n    \"task_type\": \"simple\",\n    \"requires_planning\": false\n\x7d\n"

/-- Canned intent response for document export (ai_client.py 409-417). -/
def mockIntentExport : String :=
  "\n\x7b\n    \"intent\": \"export_document\",\n    \"confidence\": 0.9,\n    \"entities\": \x7b\x7d,\n    \"task_type\": \"simple\",\n    \"requires_planning\": false\n\x7d\n"

/-- The general canned response of the offline mode (ai_client.py 420-438). -/
def mockGeneral : String :=
  "\n🤖 **模拟模式运行中**\n\n由于未配置 API 密钥，当前运行在模拟模式下。\n\n💡 **配置 API 密钥**：\n1. 运行 `tender` 命令\n2. 按提示输入 OpenAI API Key\n3. 完成配置后即可使用完整功能\n\n📝 **当前功能**：\n- ✅ 项目管理（创建、列表、切换）\n- ✅ 文件操作（读写、目录管理）\n- ✅ 大纲生成（使用内置模板）\n- ✅ Word文档导出\n- ⚠️ AI内容生成（需要API密钥）\n\n🚀 **开始使用**：即使在模拟模式下，您也可以体验大部分功能！\n"

/-- Embedding of `AIClient._get_mock_response` (ai_client.py lines 370-438):
a pure function of the prompt (the system prompt parameter is ignored by the
source as well), selecting a canned pattern by substring tests. -/
def getMockResponse (prompt : String) (systemPrompt : Option String) : String :=
  if strIn "分析用户的意图" prompt || strIn "analyze" (pyLower prompt) then
    if strIn "创建项目" prompt || strIn "create" (pyLower prompt) then mockIntentCreate
    else if strIn "生成大纲" prompt || strIn "outline" (pyLower prompt) then mockIntentOutline
    else if strIn "查看" prompt || strIn "view" (pyLower prompt) then mockIntentView
    else if strIn "导出" prompt || strIn "export" (pyLower prompt) then mockIntentExport
    else mockGeneral
  else mockGeneral

/-- The catch-all error mapping of `AIClient.chat` (ai_client.py lines
321-328): classify the exception text into an authentication, connectivity,
or generic warning message. -/
def chatErrorText (baseUrl : String) (e : String) : String :=
  if strIn "api_key" (pyLower e) || strIn "authentication" (pyLower e) then
    "⚠️ API密钥认证失败，请检查配置。"
  else if strIn "connection" (pyLower e) || strIn "network" (pyLower e) then
    "⚠️ 网络连接失败，请检查端点 " ++ baseUrl ++ " 是否可访问。"
  else
    "⚠️ AI服务调用失败: " ++ e

/-- One response of the external completion service: the structured
`tool_calls` list (name and already-parsed JSON arguments; a JSON decode
failure is folded into an empty dict as at lines 266-268) and the assistant
text content. -/
structure APIResponse where
  toolCalls : List (String × List (String × PyVal))
  content : String

/-- The external completion service as seen by one `chat` call: the first
request's outcome, the follow-up request after structured tool dispatch, and
the plain retried request issued when the function-calling attempt raises
(`Except.error` is a raised exception such as an authentication or
connectivity failure). -/
structure Oracle where
  first : Except String APIResponse
  second : Except String String
  fallback : Except String APIResponse

/-- The structured tool-dispatch loop (ai_client.py lines 261-287): one
`_call_mcp_tool` invocation per structured call, formatted into tool-result
turns (the turns feed the second round trip and do not reach the output). -/
def dispatchStructured (srv : Option MCPServerModel) :
    List (String × List (String × PyVal)) → Except String (List String)
  | [] => .ok []
  | (n, args) :: rest =>
    match callMcpToolE srv n args with
    | .error e => .error e
    | .ok r =>
      match dispatchStructured srv rest with
      | .error e => .error e
      | .ok rs => .ok (("工具 " ++ n ++ " 执行结果:\n" ++ r) :: rs)

/-- The function-calling attempt — the inner `try` of `AIClient.chat`
(ai_client.py lines 252-303): first request; if it returns structured
`tool_calls`, dispatch them and return the stripped content of the second
round trip; otherwise strip the content and run the textual extractor. -/
def fcAttempt (s : MCPServerModel) (o : Oracle) : Except String String :=
  match o.first with
  | .error e => .error e
  | .ok resp =>
    if resp.toolCalls.isEmpty then
      processTextToolCalls (some s) (pyStripWs resp.content)
    else
      match dispatchStructured (some s) resp.toolCalls with
      | .error e => .error e
      | .ok _ =>
        match o.second with
        | .error e => .error e
        | .ok c2 => .ok (pyStripWs c2)

/-- The plain chat request (ai_client.py lines 311-319): strip the content
and run the textual extractor. -/
def plainChat (srv : Option MCPServerModel) (r : Except String APIResponse) :
    Except String String :=
  match r with
  | .error e => .error e
  | .ok resp => processTextToolCalls srv (pyStripWs resp.content)

/-- The non-mock body of `AIClient.chat` — the outer `try` block
(ai_client.py lines 209-319): with tools registered (`srv` present) the
function-calling attempt, falling back to a plain retried request if the
attempt raises; without tools the plain request directly. -/
def chatBody (srv : Option MCPServerModel) (o : Oracle) : Except String String :=
  match srv with
  | some s =>
    match fcAttempt s o with
    | .ok r => .ok r
    | .error _ => plainChat (some s) o.fallback
  | none => plainChat none o.first

/-- Embedding of `AIClient.chat` (ai_client.py lines 203-328): the mock-mode
short circuit, the non-mock body, and the outer `except` converting any
escaped exception into a user-facing warning string.  `chat` always returns
a string. -/
def chatModel (apiKey baseUrl : String) (srv : Option MCPServerModel) (o : Oracle)
    (prompt : String) (systemPrompt : Option String) : String :=
  if mockMode apiKey baseUrl then getMockResponse prompt systemPrompt
  else
    match chatBody srv o with
    | .ok r => r
    | .error e => chatErrorText baseUrl e

/-- Claim C9: with neither a credential nor a custom endpoint configured,
`chat` answers from the deterministic offline responder — the output is the
canned response of the prompt, independent of the external service (the
oracle), and no error is raised; configuring either value alone leaves mock
mode off. -/
theorem claim_C9 (apiKey baseUrl : String) (srv : Option MCPServerModel)
    (o o2 : Oracle) (prompt : String) (sys : Option String)
    (hm : mockMode apiKey baseUrl = true) :
    chatModel apiKey baseUrl srv o prompt sys = getMockResponse prompt sys ∧
    chatModel apiKey baseUrl srv o prompt sys = chatModel apiKey baseUrl srv o2 prompt sys ∧
    (∀ k u : String, pyStripWs k ≠ "" ∨ pyStripWs u ≠ "" → mockMode k u = false) := by
  refine ⟨?_, ?_, ?_⟩
  · unfold chatModel
    rw [if_pos hm]
  · unfold chatModel
    rw [if_pos hm, if_pos hm]
  · intro k u h
    unfold mockMode
    cases h with
    | inl hk => simp [hk]
    | inr hu => simp [hu]

/-- An oracle that would answer normally. -/
def oracleA : Oracle := ⟨.ok ⟨[], "A"⟩, .ok "B", .ok ⟨[], "C"⟩⟩

/-- An oracle whose service is entirely unreachable. -/
def oracleB : Oracle := ⟨.error "down", .error "down", .error "down"⟩

/-- Concrete instance discharging claim C9's hypothesis: empty credential
and blank endpoint; the output is canned and oracle-independent. -/
theorem claim_C9_witness :
    chatModel "" "   " none oracleA "hello" none = getMockResponse "hello" none ∧
    chatModel "" "   " none oracleA "hello" none = chatModel "" "   " none oracleB "hello" none :=
  ⟨(claim_C9 "" "   " none oracleA oracleB "hello" none rfl).1,
   (claim_C9 "" "   " none oracleA oracleB "hello" none rfl).2.1⟩

/-- Claim C6 (counterexample): with no structured calls and no textual
marker, `chat` returns `message.content.strip()`, so a first response
`"hi\n"` comes back as `"hi"` — not verbatim. -/
theorem claim_C6_counterexample :
    chatModel "k" "" none ⟨.ok ⟨[], "hi\n"⟩, .ok "", .ok ⟨[], ""⟩⟩ "p" none = "hi" ∧
    ("hi" : String) ≠ "hi\n" := ⟨rfl, by decide⟩

/-- Claim C6 (amended): when the first response carries no structured
`tool_calls` and its stripped content contains no conforming textual marker
occurrence, `chat` performs no second round trip — the output is determined
by the first response alone — and returns the first response's content with
leading and trailing whitespace stripped (verbatim exactly when the content
has none). -/
theorem claim_C6_amended (apiKey baseUrl : String) (srv : Option MCPServerModel)
    (o : Oracle) (resp : APIResponse) (prompt : String) (sys : Option String)
    (hm : mockMode apiKey baseUrl = false)
    (hfirst : o.first = .ok resp)
    (hcalls : resp.toolCalls = [])
    (htext : findTool (pyStripWs resp.content).data = []) :
    chatModel apiKey baseUrl srv o prompt sys = pyStripWs resp.content ∧
    ∀ o2 : Oracle, o2.first = o.first →
      chatModel apiKey baseUrl srv o2 prompt sys = pyStripWs resp.content := by
  have key : ∀ o2 : Oracle, o2.first = o.first →
      chatModel apiKey baseUrl srv o2 prompt sys = pyStripWs resp.content := by
    intro o2 h2
    have hpt : ∀ sv, processTextToolCalls sv (pyStripWs resp.content)
        = .ok (pyStripWs resp.content) :=
      fun sv => processTextToolCalls_id sv _ htext
    unfold chatModel
    rw [hm]
    simp only [Bool.false_eq_true, if_false]
    cases srv with
    | none =>
      have hb : chatBody none o2 = .ok (pyStripWs resp.content) := by
        simp only [chatBody, plainChat, h2, hfirst]
        exact hpt none
      rw [hb]
    | some s =>
      have hfc : fcAttempt s o2 = .ok (pyStripWs resp.content) := by
        simp only [fcAttempt, h2, hfirst, hcalls, List.isEmpty_nil, if_true]
        exact hpt (some s)
      have hb : chatBody (some s) o2 = .ok (pyStripWs resp.content) := by
        simp only [chatBody, hfc]
      rw [hb]
  exact ⟨key o rfl, key⟩

/-- Concrete instance discharging claim C6's (amended) hypotheses: a keyed
client, no tools, first response `"  ok  "` with no calls. -/
theorem claim_C6_witness :
    chatModel "k" "" none ⟨.ok ⟨[], "  ok  "⟩, .ok "ignored", .ok ⟨[], "ignored"⟩⟩ "p" none
      = pyStripWs "  ok  " :=
  (claim_C6_amended "k" "" none ⟨.ok ⟨[], "  ok  "⟩, .ok "ignored", .ok ⟨[], "ignored"⟩⟩
    ⟨[], "  ok  "⟩ "p" none rfl rfl rfl rfl).1
